import Mathlib

/-!
Shallow embedding of the signal-to-risk aggregation engine of
`src/backend/src/agents/orchestrator.py` together with the data model of
`src/backend/src/models/compliance.py`.

Modelling conventions:
* Python floats are modelled as rationals (`ℚ`); all score arithmetic in the
  source uses small decimal constants, so the arithmetic is exact.
* `datetime.utcnow()` is modelled by an explicit integer timestamp argument
  (`now : ℤ`) supplied to each operation that reads the clock.
* `uuid.uuid4()` for review ids is modelled by an explicit id supply
  `ids : ℕ → String`; the k-th review created during one ingest call gets
  `ids k`.
* Python's `round(x, 1)` (round-half-to-even at one decimal place) is
  modelled by `round1` below.
* `logger` calls have no observable effect on engine state and are omitted.
* Python dicts keyed by strings (`agent_statuses`) are modelled as functions
  `String → Option AgentStatus`; the dict built by iterating over the
  `ComplianceFramework` enum (`framework_scores`) is modelled as an
  association list in the enum's declaration order.
-/

/-- Enumeration `Severity(str, Enum)` from `compliance.py`. -/
inductive Severity where
  | LOW
  | MEDIUM
  | HIGH
  | CRITICAL
deriving DecidableEq, Repr

/-- Enumeration `ComplianceFramework(str, Enum)` from `compliance.py`. -/
inductive ComplianceFramework where
  | GDPR
  | SOC2
  | HIPAA
  | PCI_DSS
  | ISO_27001
deriving DecidableEq, Repr

/-- The members of `ComplianceFramework` in declaration order, as iterated by
`for framework in ComplianceFramework` in `_calculate_risk`. -/
def ComplianceFramework.all : List ComplianceFramework :=
  [.GDPR, .SOC2, .HIPAA, .PCI_DSS, .ISO_27001]

/-- Enumeration `SignalSource(str, Enum)` from `compliance.py`. -/
inductive SignalSource where
  | GITHUB_PR
  | SLACK_MESSAGE
  | DOCUMENT
deriving DecidableEq, Repr

/-- Model `ComplianceFinding` from `compliance.py`.  The pydantic constraint
`confidence ∈ [0,1]` is validation at construction time; here the field is a
plain rational and claims carry the constraint as a hypothesis.  The opaque
`metadata` dict is modelled as an association list. -/
structure ComplianceFinding where
  id : String
  source : SignalSource
  source_url : Option String := none
  title : String := ""
  description : String := ""
  severity : Severity
  frameworks : List ComplianceFramework := []
  confidence : ℚ
  detected_at : ℤ := 0
  raw_content : Option String := none
  metadata : List (String × String) := []
deriving DecidableEq, Repr

/-- Model `RiskScore` from `compliance.py`. -/
structure RiskScore where
  overall_score : ℚ
  framework_scores : List (ComplianceFramework × ℚ) := []
  findings_count : ℕ := 0
  critical_count : ℕ := 0
  high_count : ℕ := 0
  last_updated : ℤ
deriving DecidableEq, Repr

/-- Model `HITLReview` from `compliance.py`. -/
structure HITLReview where
  id : String
  finding_id : String
  status : String := "pending"
  reviewer : Option String := none
  notes : Option String := none
  created_at : ℤ
  resolved_at : Option ℤ := none
deriving DecidableEq, Repr

/-- Model `AgentStatus` from `compliance.py`. -/
structure AgentStatus where
  agent_name : String
  is_active : Bool := true
  last_heartbeat : Option ℤ := none
  findings_today : ℤ := 0
  error_count : ℤ := 0
deriving DecidableEq, Repr

/-- Mutable state of `OrchestratorAgent` (`__init__` in `orchestrator.py`). -/
structure OrchestratorAgent where
  findings : List ComplianceFinding := []
  reviews : List HITLReview := []
  agent_statuses : String → Option AgentStatus := fun _ => none
  current_risk : Option RiskScore := none

/-- The freshly constructed `OrchestratorAgent()`. -/
def OrchestratorAgent.init : OrchestratorAgent := {}

/-- Weight table `SEVERITY_WEIGHTS` from `orchestrator.py`. -/
def SEVERITY_WEIGHTS : Severity → ℚ
  | .LOW => 1
  | .MEDIUM => 3
  | .HIGH => 7
  | .CRITICAL => 15

/-- Threshold `HITL_THRESHOLD_SCORE` from `orchestrator.py`. -/
def HITL_THRESHOLD_SCORE : ℚ := 50

/-- Threshold `HITL_THRESHOLD_CRITICAL` from `orchestrator.py`. -/
def HITL_THRESHOLD_CRITICAL : ℕ := 1

/-- Round-half-to-even to the nearest integer (semantics of Python's builtin
`round` on the exact value). -/
def roundHalfEven (q : ℚ) : ℤ :=
  if q - ⌊q⌋ < 1/2 then ⌊q⌋
  else if (1:ℚ)/2 < q - ⌊q⌋ then ⌊q⌋ + 1
  else if ⌊q⌋ % 2 = 0 then ⌊q⌋ else ⌊q⌋ + 1

/-- Python's `round(x, 1)`: round-half-to-even at one decimal place. -/
def round1 (q : ℚ) : ℚ := (roundHalfEven (q * 10) : ℚ) / 10

/-- One finding's contribution `SEVERITY_WEIGHTS[f.severity] * f.confidence`. -/
def finding_weight (f : ComplianceFinding) : ℚ :=
  SEVERITY_WEIGHTS f.severity * f.confidence

/-- `sum(SEVERITY_WEIGHTS[f.severity] * f.confidence for f in fs)`. -/
def total_weight (fs : List ComplianceFinding) : ℚ :=
  (fs.map finding_weight).sum

/-- Embedding of `OrchestratorAgent._calculate_risk`: overall and per-framework risk from
the accumulated finding list.  `now` stands for `datetime.utcnow()` filling
the `last_updated` default. -/
def _calculate_risk (findings : List ComplianceFinding) (now : ℤ) : RiskScore :=
  if findings = [] then
    { overall_score := 0, last_updated := now }
  else
    let tw := total_weight findings
    let overall := min 100 (tw / 20 * 100)
    let framework_scores := ComplianceFramework.all.filterMap (fun fw =>
      let ffs := findings.filter (fun f => decide (fw ∈ f.frameworks))
      if ffs = [] then none
      else some (fw, min 100 (total_weight ffs / 10 * 100)))
    { overall_score := round1 overall
      framework_scores := framework_scores
      findings_count := findings.length
      critical_count := (findings.filter (fun f => decide (f.severity = .CRITICAL))).length
      high_count := (findings.filter (fun f => decide (f.severity = .HIGH))).length
      last_updated := now }

/-- Embedding of `OrchestratorAgent._should_trigger_hitl`.  In the source the guard
`if not self._current_risk` is only taken when `_current_risk is None`
(a pydantic model instance is always truthy), hence the `Option` match. -/
def _should_trigger_hitl (current_risk : Option RiskScore)
    (new_findings : List ComplianceFinding) : Bool :=
  match current_risk with
  | none => false
  | some risk =>
    if HITL_THRESHOLD_SCORE ≤ risk.overall_score then true
    else
      let new_critical :=
        (new_findings.filter (fun f => decide (f.severity = .CRITICAL))).length
      decide (HITL_THRESHOLD_CRITICAL ≤ new_critical)

/-- Embedding of `OrchestratorAgent._create_hitl_review`: the review record built for one
finding; `rid` stands for `str(uuid.uuid4())` and `now` for the creation
timestamp default. -/
def _create_hitl_review (finding : ComplianceFinding) (rid : String) (now : ℤ) :
    HITLReview :=
  { id := rid, finding_id := finding.id, status := "pending", created_at := now }

/-- Embedding of `OrchestratorAgent.ingest_findings`: dedup against previously seen ids,
append, recompute risk, create HITL reviews for CRITICAL/HIGH newly accepted
findings when the trigger fires.  Returns the updated state and the returned
`RiskScore`. -/
def ingest_findings (st : OrchestratorAgent) (new_findings : List ComplianceFinding)
    (now : ℤ) (ids : ℕ → String) : OrchestratorAgent × RiskScore :=
  let existing_ids := st.findings.map (·.id)
  let unique_new := new_findings.filter (fun f => decide (f.id ∉ existing_ids))
  let findings' := st.findings ++ unique_new
  let risk := _calculate_risk findings' now
  let selected := unique_new.filter
    (fun f => decide (f.severity = .CRITICAL ∨ f.severity = .HIGH))
  let new_reviews :=
    if _should_trigger_hitl (some risk) unique_new then
      selected.enum.map (fun p => _create_hitl_review p.2 (ids p.1) now)
    else []
  ({ st with
      findings := findings'
      reviews := st.reviews ++ new_reviews
      current_risk := some risk }, risk)

/-- The loop body of `OrchestratorAgent.resolve_review`: walk the ledger,
update the first review whose id matches, return the updated ledger and the
review found (if any). -/
def resolve_review_list (reviews : List HITLReview) (review_id status reviewer : String)
    (notes : Option String) (now : ℤ) : List HITLReview × Option HITLReview :=
  match reviews with
  | [] => ([], none)
  | r :: rs =>
    if r.id = review_id then
      let r' := { r with
        status := status
        reviewer := some reviewer
        notes := notes
        resolved_at := some now }
      (r' :: rs, some r')
    else
      let p := resolve_review_list rs review_id status reviewer notes now
      (r :: p.1, p.2)

/-- Embedding of `OrchestratorAgent.resolve_review`. -/
def resolve_review (st : OrchestratorAgent) (review_id status reviewer : String)
    (notes : Option String) (now : ℤ) : OrchestratorAgent × Option HITLReview :=
  let p := resolve_review_list st.reviews review_id status reviewer notes now
  ({ st with reviews := p.1 }, p.2)

/-- Embedding of `OrchestratorAgent.get_risk_score`: returns the cached score, computing
and caching it lazily when no ingestion has happened yet. -/
def get_risk_score (st : OrchestratorAgent) (now : ℤ) :
    OrchestratorAgent × RiskScore :=
  match st.current_risk with
  | some r => (st, r)
  | none =>
    let r := _calculate_risk st.findings now
    ({ st with current_risk := some r }, r)

/-- Embedding of `OrchestratorAgent.get_pending_reviews`. -/
def get_pending_reviews (st : OrchestratorAgent) : List HITLReview :=
  st.reviews.filter (fun r => decide (r.status = "pending"))

/-- Embedding of `OrchestratorAgent.get_findings_by_severity`. -/
def get_findings_by_severity (st : OrchestratorAgent) (severity : Severity) :
    List ComplianceFinding :=
  st.findings.filter (fun f => decide (f.severity = severity))

/-- Embedding of `OrchestratorAgent.get_findings_by_framework`. -/
def get_findings_by_framework (st : OrchestratorAgent)
    (framework : ComplianceFramework) : List ComplianceFinding :=
  st.findings.filter (fun f => decide (framework ∈ f.frameworks))

/-- Embedding of `OrchestratorAgent.update_agent_status`: dict assignment
`self.agent_statuses[agent_name] = AgentStatus(...)`, i.e. the record for the
name is replaced wholesale by a freshly constructed one. -/
def update_agent_status (st : OrchestratorAgent) (agent_name : String)
    (is_active : Bool) (findings_today : ℤ) (now : ℤ) : OrchestratorAgent :=
  { st with agent_statuses := fun k =>
      if k = agent_name then
        some { agent_name := agent_name
               is_active := is_active
               last_heartbeat := some now
               findings_today := findings_today }
      else st.agent_statuses k }

/-- The state-mutating entry points of the engine, for reachability
statements.  Pure queries (`get_pending_reviews`, the filters) do not change
state; `get_dashboard_summary` mutates only through `get_risk_score`, covered
by `Op.getRisk`. -/
inductive Op where
  | ingest (new_findings : List ComplianceFinding) (now : ℤ) (ids : ℕ → String)
  | resolve (review_id status reviewer : String) (notes : Option String) (now : ℤ)
  | updateStatus (agent_name : String) (is_active : Bool) (findings_today : ℤ) (now : ℤ)
  | getRisk (now : ℤ)

/-- State transition of one engine operation. -/
def stepOp (st : OrchestratorAgent) : Op → OrchestratorAgent
  | .ingest nf now ids => (ingest_findings st nf now ids).1
  | .resolve rid s rev notes now => (resolve_review st rid s rev notes now).1
  | .updateStatus n a ft now => update_agent_status st n a ft now
  | .getRisk now => (get_risk_score st now).1

/-- Run a sequence of operations from the fresh engine. -/
def runOps (ops : List Op) : OrchestratorAgent :=
  ops.foldl stepOp OrchestratorAgent.init

/-- A batch whose finding ids are pairwise distinct; `Op.batchNodup` holds of
every non-ingest operation. -/
def Op.batchNodup : Op → Prop
  | .ingest nf _ _ => (nf.map (·.id)).Nodup
  | _ => True

/-- The `unique_new` list computed inside `ingest_findings`: the sublist of
the batch that survives deduplication against previously seen finding ids. -/
def accepted (st : OrchestratorAgent) (new_findings : List ComplianceFinding) :
    List ComplianceFinding :=
  new_findings.filter (fun f => decide (f.id ∉ st.findings.map (·.id)))

/-- Structural well-formedness of the engine state maintained by every
operation (given batches with pairwise-distinct ids): accumulated finding ids
are pairwise distinct, review finding references are pairwise distinct, and
every review references an accumulated finding. -/
def ReviewsWF (st : OrchestratorAgent) : Prop :=
  (st.findings.map (·.id)).Nodup
  ∧ (st.reviews.map (·.finding_id)).Nodup
  ∧ ∀ rv ∈ st.reviews, rv.finding_id ∈ st.findings.map (·.id)

lemma le_roundHalfEven (q : ℚ) : ⌊q⌋ ≤ roundHalfEven q := by
  unfold roundHalfEven
  split_ifs <;> omega

lemma roundHalfEven_le_floor_add_one (q : ℚ) : roundHalfEven q ≤ ⌊q⌋ + 1 := by
  unfold roundHalfEven
  split_ifs <;> omega

lemma roundHalfEven_le_ceil (q : ℚ) : roundHalfEven q ≤ ⌈q⌉ := by
  by_cases hq : q - ⌊q⌋ = 0
  · unfold roundHalfEven
    rw [if_pos (by rw [hq]; norm_num)]
    exact Int.floor_le_ceil q
  · have h1 : (⌊q⌋ : ℚ) < q := lt_of_le_of_ne (Int.floor_le q) (fun h => hq (by linarith))
    have h2 : ⌊q⌋ + 1 ≤ ⌈q⌉ := by
      have := Int.lt_ceil.mpr h1
      omega
    exact le_trans (roundHalfEven_le_floor_add_one q) h2

lemma roundHalfEven_mono {q r : ℚ} (h : q ≤ r) : roundHalfEven q ≤ roundHalfEven r := by
  have hf : ⌊q⌋ ≤ ⌊r⌋ := Int.floor_mono h
  rcases eq_or_lt_of_le hf with heq | hlt
  · have hfr : (⌊r⌋ : ℚ) = (⌊q⌋ : ℚ) := by exact_mod_cast heq.symm
    unfold roundHalfEven
    rw [← heq]
    split_ifs <;> first | omega | (exfalso; rw [hfr] at *; linarith)
  · calc roundHalfEven q ≤ ⌊q⌋ + 1 := roundHalfEven_le_floor_add_one q
      _ ≤ ⌊r⌋ := by omega
      _ ≤ roundHalfEven r := le_roundHalfEven r

lemma roundHalfEven_nonneg {q : ℚ} (h : 0 ≤ q) : 0 ≤ roundHalfEven q :=
  le_trans (Int.floor_nonneg.mpr h) (le_roundHalfEven q)

lemma round1_mono {q r : ℚ} (h : q ≤ r) : round1 q ≤ round1 r := by
  unfold round1
  have hm := roundHalfEven_mono (by linarith : q * 10 ≤ r * 10)
  have : (roundHalfEven (q * 10) : ℚ) ≤ (roundHalfEven (r * 10) : ℚ) := by exact_mod_cast hm
  exact (div_le_div_iff_of_pos_right (by norm_num : (0:ℚ) < 10)).mpr this

lemma round1_nonneg {q : ℚ} (h : 0 ≤ q) : 0 ≤ round1 q := by
  unfold round1
  have := roundHalfEven_nonneg (by linarith : (0:ℚ) ≤ q * 10)
  exact div_nonneg (by exact_mod_cast this) (by norm_num)

lemma round1_le_100 {q : ℚ} (h : q ≤ 100) : round1 q ≤ 100 := by
  have h1 : roundHalfEven (q * 10) ≤ ⌈q * 10⌉ := roundHalfEven_le_ceil _
  have h2 : ⌈q * 10⌉ ≤ (1000 : ℤ) := Int.ceil_le.mpr (by push_cast; linarith)
  have h3 : (roundHalfEven (q * 10) : ℚ) ≤ 1000 := by exact_mod_cast le_trans h1 h2
  unfold round1
  rw [div_le_iff₀ (by norm_num : (0:ℚ) < 10)]
  linarith

lemma SEVERITY_WEIGHTS_pos (s : Severity) : 0 < SEVERITY_WEIGHTS s := by
  cases s <;> norm_num [SEVERITY_WEIGHTS]

lemma finding_weight_nonneg {f : ComplianceFinding} (h : 0 ≤ f.confidence) :
    0 ≤ finding_weight f := by
  unfold finding_weight
  exact mul_nonneg (SEVERITY_WEIGHTS_pos f.severity).le h

lemma total_weight_append (fs gs : List ComplianceFinding) :
    total_weight (fs ++ gs) = total_weight fs + total_weight gs := by
  simp [total_weight]

lemma total_weight_nonneg (fs : List ComplianceFinding)
    (h : ∀ f ∈ fs, 0 ≤ f.confidence) : 0 ≤ total_weight fs := by
  apply List.sum_nonneg
  intro x hx
  obtain ⟨f, hf, rfl⟩ := List.mem_map.mp hx
  exact finding_weight_nonneg (h f hf)

lemma calculate_risk_overall (fs : List ComplianceFinding) (now : ℤ) :
    (_calculate_risk fs now).overall_score =
      if fs = [] then 0 else round1 (min 100 (total_weight fs / 20 * 100)) := by
  by_cases h : fs = [] <;> simp [_calculate_risk, h]

lemma calculate_risk_time (fs : List ComplianceFinding) (now1 now2 : ℤ) :
    _calculate_risk fs now2 = { _calculate_risk fs now1 with last_updated := now2 } := by
  by_cases h : fs = [] <;> simp [_calculate_risk, h]

lemma ingest_fst_findings (st : OrchestratorAgent) (new : List ComplianceFinding)
    (now : ℤ) (ids : ℕ → String) :
    (ingest_findings st new now ids).1.findings = st.findings ++ accepted st new := rfl

lemma ingest_snd (st : OrchestratorAgent) (new : List ComplianceFinding)
    (now : ℤ) (ids : ℕ → String) :
    (ingest_findings st new now ids).2 = _calculate_risk (st.findings ++ accepted st new) now := rfl

lemma ingest_fst_reviews (st : OrchestratorAgent) (new : List ComplianceFinding)
    (now : ℤ) (ids : ℕ → String) :
    (ingest_findings st new now ids).1.reviews = st.reviews ++
      (if _should_trigger_hitl (some (ingest_findings st new now ids).2) (accepted st new) = true
       then (((accepted st new).filter
               (fun f => decide (f.severity = Severity.CRITICAL ∨ f.severity = Severity.HIGH))).enum.map
              (fun p => _create_hitl_review p.2 (ids p.1) now))
       else []) := rfl

lemma accepted_after_ingest (st : OrchestratorAgent) (F : List ComplianceFinding)
    (now : ℤ) (ids : ℕ → String) :
    F.filter (fun f => decide (f.id ∉ (ingest_findings st F now ids).1.findings.map (·.id))) = [] := by
  rw [List.filter_eq_nil_iff]
  intro f hf
  simp only [decide_eq_true_eq, not_not]
  show f.id ∈ (st.findings ++ F.filter (fun f => decide (f.id ∉ st.findings.map (·.id)))).map (·.id)
  rw [List.map_append, List.mem_append]
  by_cases h : f.id ∈ st.findings.map (·.id)
  · exact Or.inl h
  · exact Or.inr (List.mem_map.mpr ⟨f, List.mem_filter.mpr ⟨hf, by simpa using h⟩, rfl⟩)

lemma new_reviews_map_fid (l : List ComplianceFinding) (ids : ℕ → String) (now : ℤ) :
    ((l.enum.map (fun p => _create_hitl_review p.2 (ids p.1) now)).map (·.finding_id))
      = l.map (·.id) := by
  rw [List.map_map]
  show l.enum.map ((fun x : ComplianceFinding => x.id) ∘ Prod.snd) = _
  rw [← List.map_map, List.enum_map_snd]

lemma should_trigger_iff (r : RiskScore) (nf : List ComplianceFinding) :
    _should_trigger_hitl (some r) nf = true ↔
      (HITL_THRESHOLD_SCORE ≤ r.overall_score ∨ ∃ f ∈ nf, f.severity = Severity.CRITICAL) := by
  by_cases h : HITL_THRESHOLD_SCORE ≤ r.overall_score
  · simp [_should_trigger_hitl, h]
  · simp only [_should_trigger_hitl, if_neg h, HITL_THRESHOLD_CRITICAL]
    constructor
    · intro h1
      have h2 : nf.filter (fun f => decide (f.severity = Severity.CRITICAL)) ≠ [] := by
        intro he
        rw [decide_eq_true_eq] at h1
        rw [he] at h1
        simp at h1
      obtain ⟨x, hx⟩ := List.exists_mem_of_ne_nil _ h2
      have hm := List.mem_filter.mp hx
      exact Or.inr ⟨x, hm.1, by simpa using hm.2⟩
    · rintro (hc | ⟨f, hf, hsev⟩)
      · exact absurd hc h
      · have hmem : f ∈ nf.filter (fun f => decide (f.severity = Severity.CRITICAL)) :=
          List.mem_filter.mpr ⟨hf, by simp [hsev]⟩
        have := List.length_pos_of_mem hmem
        simp only [decide_eq_true_eq]
        omega

lemma overall_mono (fs gs : List ComplianceFinding)
    (hfs : ∀ f ∈ fs, 0 ≤ f.confidence) (hgs : ∀ f ∈ gs, 0 ≤ f.confidence) (t t' : ℤ) :
    (_calculate_risk fs t).overall_score ≤ (_calculate_risk (fs ++ gs) t').overall_score := by
  rw [calculate_risk_overall, calculate_risk_overall]
  have htwg := total_weight_nonneg gs hgs
  by_cases h1 : fs = []
  · subst h1
    simp only [List.nil_append, if_pos rfl]
    by_cases h2 : gs = []
    · simp [h2]
    · rw [if_neg h2]
      exact round1_nonneg (le_min (by norm_num)
        (mul_nonneg (div_nonneg htwg (by norm_num)) (by norm_num)))
  · have h12 : fs ++ gs ≠ [] := by simp [h1]
    rw [if_neg h1, if_neg h12]
    apply round1_mono
    apply min_le_min le_rfl
    rw [total_weight_append]
    linarith

lemma resolve_list_not_found (l : List HITLReview) (rid s rev : String)
    (notes : Option String) (now : ℤ) (h : ∀ r ∈ l, r.id ≠ rid) :
    resolve_review_list l rid s rev notes now = (l, none) := by
  induction l with
  | nil => rfl
  | cons r rs ih =>
    rw [resolve_review_list, if_neg (h r (by simp))]
    have := ih (fun x hx => h x (by simp [hx]))
    simp [this]

lemma resolve_list_found (l : List HITLReview) (rid s rev : String)
    (notes : Option String) (now : ℤ) (h : ∃ rv ∈ l, rv.id = rid) :
    ∃ rv', (resolve_review_list l rid s rev notes now).2 = some rv'
      ∧ rv'.status = s ∧ rv'.reviewer = some rev ∧ rv'.notes = notes
      ∧ rv'.resolved_at = some now
      ∧ rv' ∈ (resolve_review_list l rid s rev notes now).1 := by
  induction l with
  | nil => simp at h
  | cons r rs ih =>
    by_cases hr : r.id = rid
    · refine ⟨({ r with status := s, reviewer := some rev, notes := notes, resolved_at := some now } : HITLReview), ?_⟩
      rw [resolve_review_list, if_pos hr]
      simp
    · obtain ⟨rv0, hm, hid⟩ := h
      rcases List.mem_cons.mp hm with rfl | htail
      · exact absurd hid hr
      · obtain ⟨rv', h1, h2, h3, h4, h5, h6⟩ := ih ⟨rv0, htail, hid⟩
        refine ⟨rv', ?_⟩
        rw [resolve_review_list, if_neg hr]
        exact ⟨h1, h2, h3, h4, h5, List.mem_cons.mpr (Or.inr h6)⟩

lemma resolve_list_map_fid (l : List HITLReview) (rid s rev : String)
    (notes : Option String) (now : ℤ) :
    (resolve_review_list l rid s rev notes now).1.map (·.finding_id)
      = l.map (·.finding_id) := by
  induction l with
  | nil => rfl
  | cons r rs ih =>
    rw [resolve_review_list]
    by_cases hr : r.id = rid
    · rw [if_pos hr]
      simp
    · rw [if_neg hr]
      simp [ih]

lemma wf_ingest (st : OrchestratorAgent) (new : List ComplianceFinding) (now : ℤ)
    (ids : ℕ → String) (hN : (new.map (·.id)).Nodup) (h : ReviewsWF st) :
    ReviewsWF (ingest_findings st new now ids).1 := by
  obtain ⟨h1, h2, h3⟩ := h
  have haccN : ((accepted st new).map (·.id)).Nodup :=
    List.Nodup.sublist (List.Sublist.map (·.id) (List.filter_sublist new)) hN
  have hdisj : ∀ x ∈ (accepted st new).map (·.id), x ∉ st.findings.map (·.id) := by
    intro x hx
    obtain ⟨f, hf, rfl⟩ := List.mem_map.mp hx
    have := List.mem_filter.mp hf
    simpa using this.2
  have hselsub : List.Sublist (((accepted st new).filter
      (fun f => decide (f.severity = Severity.CRITICAL ∨ f.severity = Severity.HIGH))).map (·.id))
      ((accepted st new).map (·.id)) :=
    List.Sublist.map (fun f : ComplianceFinding => f.id) (List.filter_sublist _)
  refine ⟨?_, ?_, ?_⟩
  · rw [ingest_fst_findings, List.map_append, List.nodup_append]
    exact ⟨h1, haccN, fun a ha hb => hdisj a hb ha⟩
  · rw [ingest_fst_reviews, List.map_append, List.nodup_append]
    refine ⟨h2, ?_, ?_⟩
    · split
      · rw [new_reviews_map_fid]
        exact List.Nodup.sublist hselsub haccN
      · simp
    · intro a ha hb
      have haf : a ∈ st.findings.map (·.id) := by
        obtain ⟨rv, hrv, rfl⟩ := List.mem_map.mp ha
        exact h3 rv hrv
      split at hb
      · rw [new_reviews_map_fid] at hb
        exact hdisj a (hselsub.mem hb) haf
      · simp at hb
  · intro rv hrv
    rw [ingest_fst_reviews] at hrv
    rw [ingest_fst_findings, List.map_append]
    rcases List.mem_append.mp hrv with hold | hnew
    · exact List.mem_append.mpr (Or.inl (h3 rv hold))
    · refine List.mem_append.mpr (Or.inr ?_)
      split at hnew
      · obtain ⟨p, hp, rfl⟩ := List.mem_map.mp hnew
        have hsnd : p.2 ∈ (accepted st new).filter
            (fun f => decide (f.severity = Severity.CRITICAL ∨ f.severity = Severity.HIGH)) := by
          rw [← List.enum_map_snd ((accepted st new).filter
            (fun f => decide (f.severity = Severity.CRITICAL ∨ f.severity = Severity.HIGH)))]
          exact List.mem_map_of_mem Prod.snd hp
        exact List.mem_map_of_mem (·.id) (List.mem_of_mem_filter hsnd)
      · simp at hnew

lemma wf_resolve (st : OrchestratorAgent) (rid s rev : String) (notes : Option String)
    (now : ℤ) (h : ReviewsWF st) :
    ReviewsWF (resolve_review st rid s rev notes now).1 := by
  obtain ⟨h1, h2, h3⟩ := h
  have hm := resolve_list_map_fid st.reviews rid s rev notes now
  refine ⟨h1, ?_, ?_⟩
  · show ((resolve_review_list st.reviews rid s rev notes now).1.map (·.finding_id)).Nodup
    rw [hm]
    exact h2
  · intro rv hrv
    have hmem : rv.finding_id ∈
        (resolve_review_list st.reviews rid s rev notes now).1.map (·.finding_id) :=
      List.mem_map_of_mem (·.finding_id) hrv
    rw [hm] at hmem
    obtain ⟨rv0, hrv0, heq⟩ := List.mem_map.mp hmem
    rw [← heq]
    exact h3 rv0 hrv0

lemma wf_step (st : OrchestratorAgent) (op : Op) (hop : op.batchNodup)
    (h : ReviewsWF st) : ReviewsWF (stepOp st op) := by
  cases op with
  | ingest nf now ids => exact wf_ingest st nf now ids hop h
  | resolve rid s rev notes now => exact wf_resolve st rid s rev notes now h
  | updateStatus n a ft now => exact h
  | getRisk now =>
    rcases hc : st.current_risk with _ | r <;> simp only [stepOp, get_risk_score, hc] <;> exact h

lemma wf_init : ReviewsWF OrchestratorAgent.init :=
  ⟨List.nodup_nil, List.nodup_nil, by intro rv hrv; simp [OrchestratorAgent.init] at hrv⟩

lemma wf_runOps (ops : List Op) : ∀ st, ReviewsWF st → (∀ op ∈ ops, op.batchNodup) →
    ReviewsWF (ops.foldl stepOp st) := by
  induction ops with
  | nil => intro st h _; exact h
  | cons op rest ih =>
    intro st h hops
    simp only [List.foldl_cons]
    exact ih _ (wf_step st op (hops op (by simp)) h) (fun o ho => hops o (by simp [ho]))

lemma length_le_one_of_nodup_const {β : Type} {l : List β} {c : β}
    (hn : l.Nodup) (hc : ∀ x ∈ l, x = c) : l.length ≤ 1 := by
  match l with
  | [] => simp
  | [x] => simp
  | x :: y :: rest =>
    exfalso
    rcases List.nodup_cons.mp hn with ⟨hnx, _⟩
    exact hnx (by rw [hc x (by simp), ← hc y (by simp)]; exact List.mem_cons_self y rest)

/-- Claim C1: ingestion is idempotent — re-ingesting the identical finding
list yields the same RiskScore up to the last-updated timestamp, and the
second call adds no findings and no reviews. -/
theorem c1_ingest_idempotent (st : OrchestratorAgent) (F : List ComplianceFinding)
    (now1 now2 : ℤ) (ids1 ids2 : ℕ → String) :
    (ingest_findings (ingest_findings st F now1 ids1).1 F now2 ids2).2
      = { (ingest_findings st F now1 ids1).2 with last_updated := now2 }
    ∧ (ingest_findings (ingest_findings st F now1 ids1).1 F now2 ids2).1.findings
      = (ingest_findings st F now1 ids1).1.findings
    ∧ (ingest_findings (ingest_findings st F now1 ids1).1 F now2 ids2).1.reviews
      = (ingest_findings st F now1 ids1).1.reviews := by
  have hacc := accepted_after_ingest st F now1 ids1
  have hsnd : (ingest_findings st F now1 ids1).2
      = _calculate_risk ((ingest_findings st F now1 ids1).1.findings) now1 := rfl
  refine ⟨?_, ?_, ?_⟩
  · show _calculate_risk ((ingest_findings st F now1 ids1).1.findings ++ _) now2 = _
    rw [hacc, List.append_nil, hsnd, calculate_risk_time _ now1 now2]
  · show (ingest_findings st F now1 ids1).1.findings ++ _ = _
    rw [hacc, List.append_nil]
  · show (ingest_findings st F now1 ids1).1.reviews ++ _ = _
    rw [hacc]
    simp

/-- Claim C2: ingesting one CRITICAL / confidence 1.0 / HIPAA finding into a
fresh engine gives overall 75.0, HIPAA framework score 100.0, one critical,
and exactly one pending review for that finding. -/
theorem c2_single_critical_hipaa (f : ComplianceFinding) (now : ℤ) (ids : ℕ → String)
    (hsev : f.severity = Severity.CRITICAL) (hconf : f.confidence = 1)
    (hfw : f.frameworks = [ComplianceFramework.HIPAA]) :
    (ingest_findings OrchestratorAgent.init [f] now ids).2.overall_score = 75
    ∧ (ingest_findings OrchestratorAgent.init [f] now ids).2.framework_scores
        = [(ComplianceFramework.HIPAA, 100)]
    ∧ (ingest_findings OrchestratorAgent.init [f] now ids).2.critical_count = 1
    ∧ (ingest_findings OrchestratorAgent.init [f] now ids).1.reviews
        = [{ id := ids 0, finding_id := f.id, status := "pending", created_at := now }] := by
  obtain ⟨i, src, su, t, d, sev, fws, c, da, rc, md⟩ := f
  simp only at hsev hconf hfw
  subst hsev hconf hfw
  refine ⟨?_, ?_, ?_, ?_⟩ <;>
    simp [ingest_findings, OrchestratorAgent.init, _calculate_risk, _should_trigger_hitl,
      _create_hitl_review, total_weight, finding_weight, SEVERITY_WEIGHTS,
      HITL_THRESHOLD_SCORE, ComplianceFramework.all, round1, roundHalfEven] <;>
    norm_num

/-- Witness for C2 at a concrete finding. -/
theorem c2_single_critical_hipaa_witness :
    (ingest_findings OrchestratorAgent.init
      [{ id := "f1", source := .DOCUMENT, severity := .CRITICAL,
         frameworks := [.HIPAA], confidence := 1 }] 0 (fun _ => "r")).2.overall_score = 75 :=
  (c2_single_critical_hipaa _ 0 (fun _ => "r") rfl rfl rfl).1

/-- Counterexample to claim C3: two calls for the same agent name with
finding counts 2 then 3 leave the stored counter at 3 (the fresh record
overwrites), not at the accumulated 2 + 3 the claim predicts. -/
theorem c3_counterexample :
    ((update_agent_status (update_agent_status OrchestratorAgent.init "pr_monitor" true 2 0)
        "pr_monitor" true 3 1).agent_statuses "pr_monitor").map (·.findings_today) = some 3
    ∧ (3 : ℤ) ≠ 2 + 3 := by
  constructor
  · simp [update_agent_status]
  · norm_num

/-- Claim C3 (amended): `update_agent_status` upserts per agent name, but
every call — first or subsequent — replaces the stored record with a freshly
constructed AgentStatus whose findings-today counter is the given value
(overwritten, not incremented) and whose last-heartbeat is the current time;
records for other names are untouched. -/
theorem c3_update_status_overwrites (st : OrchestratorAgent) (name : String)
    (active : Bool) (ft now : ℤ) :
    (update_agent_status st name active ft now).agent_statuses name
      = some { agent_name := name, is_active := active, last_heartbeat := some now,
               findings_today := ft }
    ∧ ∀ k, k ≠ name →
        (update_agent_status st name active ft now).agent_statuses k = st.agent_statuses k := by
  constructor
  · simp [update_agent_status]
  · intro k hk
    simp [update_agent_status, hk]

/-- Witness for the amended C3 at concrete values. -/
theorem c3_update_status_overwrites_witness :
    (update_agent_status OrchestratorAgent.init "pr_monitor" true 5 7).agent_statuses "pr_monitor"
      = some { agent_name := "pr_monitor", is_active := true, last_heartbeat := some 7,
               findings_today := 5 }
    ∧ (update_agent_status OrchestratorAgent.init "pr_monitor" true 5 7).agent_statuses "doc_crawler"
      = OrchestratorAgent.init.agent_statuses "doc_crawler" :=
  ⟨(c3_update_status_overwrites OrchestratorAgent.init "pr_monitor" true 5 7).1,
   (c3_update_status_overwrites OrchestratorAgent.init "pr_monitor" true 5 7).2 "doc_crawler"
     (by decide)⟩

/-- Claim C4: during ingest, the newly appended reviews are exactly one
pending review per newly accepted CRITICAL/HIGH finding when the trigger
fires (recomputed overall score at least 50, or a CRITICAL finding among the
accepted batch) and none otherwise; MEDIUM/LOW findings never receive one,
and a single LOW finding into an empty engine creates zero reviews. -/
theorem c4_hitl_review_policy (st : OrchestratorAgent) (new : List ComplianceFinding)
    (now : ℤ) (ids : ℕ → String) :
    ((ingest_findings st new now ids).1.reviews.take st.reviews.length = st.reviews)
    ∧ (((ingest_findings st new now ids).1.reviews.drop st.reviews.length).map (·.finding_id)
        = if HITL_THRESHOLD_SCORE ≤ (ingest_findings st new now ids).2.overall_score
             ∨ ∃ f ∈ accepted st new, f.severity = Severity.CRITICAL
          then ((accepted st new).filter
                 (fun f => decide (f.severity = Severity.CRITICAL ∨ f.severity = Severity.HIGH))).map
                   (·.id)
          else [])
    ∧ (∀ rv ∈ (ingest_findings st new now ids).1.reviews.drop st.reviews.length,
         rv.status = "pending")
    ∧ (∀ g : ComplianceFinding, g.severity = Severity.LOW →
         (ingest_findings OrchestratorAgent.init [g] now ids).1.reviews = []) := by
  refine ⟨?_, ?_, ?_, ?_⟩
  · rw [ingest_fst_reviews, List.take_left]
  · rw [ingest_fst_reviews, List.drop_left]
    by_cases hb : _should_trigger_hitl (some (ingest_findings st new now ids).2)
        (accepted st new) = true
    · rw [if_pos hb, if_pos ((should_trigger_iff _ _).mp hb), new_reviews_map_fid]
    · rw [if_neg hb, if_neg (fun hp => hb ((should_trigger_iff _ _).mpr hp))]
      simp
  · rw [ingest_fst_reviews, List.drop_left]
    intro rv hrv
    split at hrv
    · obtain ⟨p, hp, rfl⟩ := List.mem_map.mp hrv
      rfl
    · simp at hrv
  · intro g hg
    rw [ingest_fst_reviews]
    have hsel : (accepted OrchestratorAgent.init [g]).filter
        (fun f => decide (f.severity = Severity.CRITICAL ∨ f.severity = Severity.HIGH)) = [] := by
      rw [List.filter_eq_nil_iff]
      intro f hf
      have hmem : f ∈ [g] := List.mem_of_mem_filter hf
      simp only [List.mem_singleton] at hmem
      subst hmem
      simp [hg]
    rw [hsel]
    simp [OrchestratorAgent.init]

/-- Witness for C4: a single LOW finding into the fresh engine creates no
review. -/
theorem c4_hitl_review_policy_witness :
    (ingest_findings OrchestratorAgent.init
      [{ id := "low1", source := .SLACK_MESSAGE, severity := .LOW, confidence := 1 }] 0
      (fun _ => "r")).1.reviews = [] :=
  (c4_hitl_review_policy OrchestratorAgent.init [] 0 (fun _ => "r")).2.2.2
    { id := "low1", source := .SLACK_MESSAGE, severity := .LOW, confidence := 1 } rfl

/-- Claim C5: the overall score returned by ingest is at least the overall
score observable before the call, for any consistent engine state
(cached score absent or derived from the current finding set) and any batch,
given the model invariant that confidences are non-negative. -/
theorem c5_score_monotone (st : OrchestratorAgent) (new : List ComplianceFinding)
    (now t0 : ℤ) (ids : ℕ → String)
    (h1 : ∀ f ∈ st.findings, 0 ≤ f.confidence)
    (h2 : ∀ f ∈ new, 0 ≤ f.confidence)
    (h3 : st.current_risk = none ∨ ∃ t, st.current_risk = some (_calculate_risk st.findings t)) :
    (get_risk_score st t0).2.overall_score ≤ (ingest_findings st new now ids).2.overall_score := by
  have hacc : ∀ f ∈ accepted st new, 0 ≤ f.confidence :=
    fun f hf => h2 f (List.mem_of_mem_filter hf)
  rw [ingest_snd]
  rcases h3 with h | ⟨t, h⟩
  · simp only [get_risk_score, h]
    exact overall_mono st.findings (accepted st new) h1 hacc t0 now
  · simp only [get_risk_score, h]
    exact overall_mono st.findings (accepted st new) h1 hacc t now

/-- Witness for C5 at a concrete ingest into the fresh engine. -/
theorem c5_score_monotone_witness :
    (get_risk_score OrchestratorAgent.init 0).2.overall_score
      ≤ (ingest_findings OrchestratorAgent.init
          [{ id := "m1", source := .DOCUMENT, severity := .MEDIUM, confidence := 1/2 }] 1
          (fun _ => "r")).2.overall_score :=
  c5_score_monotone OrchestratorAgent.init
    [{ id := "m1", source := .DOCUMENT, severity := .MEDIUM, confidence := 1/2 }] 1 0
    (fun _ => "r")
    (by intro f hf; exact absurd hf (List.not_mem_nil f))
    (by intro f hf
        rw [List.mem_singleton] at hf
        subst hf
        norm_num)
    (Or.inl rfl)

/-- Claim C6: for finding sets with confidences in [0,1] the overall score
and every per-framework score of the computed RiskScore lie within
[0, 100]. -/
theorem c6_scores_clamped (fs : List ComplianceFinding) (now : ℤ)
    (h : ∀ f ∈ fs, 0 ≤ f.confidence ∧ f.confidence ≤ 1) :
    (0 ≤ (_calculate_risk fs now).overall_score
      ∧ (_calculate_risk fs now).overall_score ≤ 100)
    ∧ ∀ p ∈ (_calculate_risk fs now).framework_scores, 0 ≤ p.2 ∧ p.2 ≤ 100 := by
  have hc : ∀ f ∈ fs, 0 ≤ f.confidence := fun f hf => (h f hf).1
  constructor
  · rw [calculate_risk_overall]
    by_cases h1 : fs = []
    · simp [h1]
    · rw [if_neg h1]
      have htw := total_weight_nonneg fs hc
      exact ⟨round1_nonneg (le_min (by norm_num)
          (mul_nonneg (div_nonneg htw (by norm_num)) (by norm_num))),
        round1_le_100 (min_le_left _ _)⟩
  · intro p hp
    by_cases h1 : fs = []
    · simp [_calculate_risk, h1] at hp
    · simp only [_calculate_risk, if_neg h1] at hp
      obtain ⟨fw, _, hfw⟩ := List.mem_filterMap.mp hp
      by_cases h2 : fs.filter (fun f => decide (fw ∈ f.frameworks)) = []
      · rw [if_pos h2] at hfw
        exact absurd hfw (by simp)
      · rw [if_neg h2] at hfw
        have hp2 : p.2 = min 100
            (total_weight (fs.filter (fun f => decide (fw ∈ f.frameworks))) / 10 * 100) := by
          rw [← Option.some_inj.mp hfw]
        have htw := total_weight_nonneg (fs.filter (fun f => decide (fw ∈ f.frameworks)))
          (fun f hf => hc f (List.mem_of_mem_filter hf))
        rw [hp2]
        exact ⟨le_min (by norm_num) (mul_nonneg (div_nonneg htw (by norm_num)) (by norm_num)),
          min_le_left _ _⟩

/-- Witness for C6 on a concrete extreme finding set. -/
theorem c6_scores_clamped_witness :
    (0 ≤ (_calculate_risk
        [{ id := "c1", source := .DOCUMENT, severity := .CRITICAL,
           frameworks := [.GDPR], confidence := 1 },
         { id := "c2", source := .DOCUMENT, severity := .CRITICAL,
           frameworks := [.GDPR], confidence := 1 }] 0).overall_score
      ∧ (_calculate_risk
        [{ id := "c1", source := .DOCUMENT, severity := .CRITICAL,
           frameworks := [.GDPR], confidence := 1 },
         { id := "c2", source := .DOCUMENT, severity := .CRITICAL,
           frameworks := [.GDPR], confidence := 1 }] 0).overall_score ≤ 100)
    ∧ ∀ p ∈ (_calculate_risk
        [{ id := "c1", source := .DOCUMENT, severity := .CRITICAL,
           frameworks := [.GDPR], confidence := 1 },
         { id := "c2", source := .DOCUMENT, severity := .CRITICAL,
           frameworks := [.GDPR], confidence := 1 }] 0).framework_scores, 0 ≤ p.2 ∧ p.2 ≤ 100 :=
  c6_scores_clamped _ 0
    (by intro f hf
        simp only [List.mem_cons, List.mem_singleton, List.not_mem_nil, or_false] at hf
        rcases hf with rfl | rfl <;> norm_num)

/-- Claim C7: deduplication is by finding ID alone — a new finding whose id
matches an already-ingested one is silently dropped, leaving the accumulated
finding list (and the ledger) exactly as stored. -/
theorem c7_dedup_by_id (st : OrchestratorAgent) (g : ComplianceFinding) (now : ℤ)
    (ids : ℕ → String) (h : ∃ f ∈ st.findings, f.id = g.id) :
    (ingest_findings st [g] now ids).1.findings = st.findings
    ∧ (ingest_findings st [g] now ids).1.reviews = st.reviews := by
  have hacc : accepted st [g] = [] := by
    rw [accepted, List.filter_eq_nil_iff]
    intro f hf
    simp only [List.mem_singleton] at hf
    subst hf
    obtain ⟨f0, hf0, hid⟩ := h
    simp only [decide_eq_true_eq, not_not]
    exact List.mem_map.mpr ⟨f0, hf0, hid⟩
  constructor
  · rw [ingest_fst_findings, hacc, List.append_nil]
  · rw [ingest_fst_reviews, hacc]
    simp

/-- Witness for C7: re-ingesting id "dup" with different content changes
nothing. -/
theorem c7_dedup_by_id_witness :
    (ingest_findings
      { findings := [{ id := "dup", source := .DOCUMENT, severity := .HIGH, confidence := 1 }] }
      [{ id := "dup", source := .SLACK_MESSAGE, title := "changed", severity := .LOW,
         confidence := 1/2 }] 0 (fun _ => "r")).1.findings
      = [{ id := "dup", source := .DOCUMENT, severity := .HIGH, confidence := 1 }]
    ∧ (ingest_findings
      { findings := [{ id := "dup", source := .DOCUMENT, severity := .HIGH, confidence := 1 }] }
      [{ id := "dup", source := .SLACK_MESSAGE, title := "changed", severity := .LOW,
         confidence := 1/2 }] 0 (fun _ => "r")).1.reviews = [] :=
  c7_dedup_by_id
    { findings := [{ id := "dup", source := .DOCUMENT, severity := .HIGH, confidence := 1 }] }
    { id := "dup", source := .SLACK_MESSAGE, title := "changed", severity := .LOW,
      confidence := 1/2 } 0 (fun _ => "r")
    ⟨{ id := "dup", source := .DOCUMENT, severity := .HIGH, confidence := 1 },
     List.mem_singleton.mpr rfl, rfl⟩

/-- Claim C8: resolving a review id absent from the ledger returns the
not-found signal and leaves the whole engine state unchanged. -/
theorem c8_resolve_unknown (st : OrchestratorAgent) (rid s rev : String)
    (notes : Option String) (now : ℤ) (h : ∀ rv ∈ st.reviews, rv.id ≠ rid) :
    resolve_review st rid s rev notes now = (st, none) := by
  unfold resolve_review
  rw [resolve_list_not_found _ _ _ _ _ _ h]

/-- Witness for C8 on a concrete one-review ledger. -/
theorem c8_resolve_unknown_witness :
    resolve_review
      { reviews := [{ id := "r1", finding_id := "f1", created_at := 0 }] }
      "zzz" "approved" "alice" none 5
      = ({ reviews := [{ id := "r1", finding_id := "f1", created_at := 0 }] }, none) :=
  c8_resolve_unknown
    { reviews := [{ id := "r1", finding_id := "f1", created_at := 0 }] }
    "zzz" "approved" "alice" none 5
    (by intro rv hrv
        rw [List.mem_singleton] at hrv
        subst hrv
        decide)

/-- Counterexample to claim C9: one batch containing two CRITICAL findings
that share the id "x" passes deduplication whole (dedup only checks
previously stored ids), so the single ingest creates two pending reviews
referencing the same finding id. -/
theorem c9_counterexample :
    ((runOps [Op.ingest
        [{ id := "x", source := .DOCUMENT, severity := .CRITICAL, confidence := 1 },
         { id := "x", source := .SLACK_MESSAGE, severity := .CRITICAL, confidence := 1 }] 0
        (fun n => if n = 0 then "r0" else "r1")]).reviews.filter
      (fun rv => decide (rv.status = "pending" ∧ rv.finding_id = "x"))).length = 2 := by
  simp [runOps, stepOp, ingest_findings, OrchestratorAgent.init, _calculate_risk,
    _should_trigger_hitl, _create_hitl_review, total_weight, finding_weight,
    SEVERITY_WEIGHTS, HITL_THRESHOLD_SCORE, HITL_THRESHOLD_CRITICAL, round1, roundHalfEven,
    List.enum, List.enumFrom]

/-- Claim C9 (amended): provided every ingested batch carries pairwise
distinct finding ids, every state reachable from the fresh engine has at
most one pending review per finding id, and every review references exactly
one finding id. -/
theorem c9_pending_review_unique (ops : List Op) (h : ∀ op ∈ ops, op.batchNodup) :
    (∀ fid, ((runOps ops).reviews.filter
        (fun rv => decide (rv.status = "pending" ∧ rv.finding_id = fid))).length ≤ 1)
    ∧ ∀ rv ∈ (runOps ops).reviews, ∃! fid, rv.finding_id = fid := by
  obtain ⟨_, h2, _⟩ := wf_runOps ops OrchestratorAgent.init wf_init h
  constructor
  · intro fid
    set l := (runOps ops).reviews.filter
      (fun rv => decide (rv.status = "pending" ∧ rv.finding_id = fid)) with hl
    have hsub : List.Sublist (l.map (·.finding_id))
        ((runOps ops).reviews.map (·.finding_id)) :=
      List.Sublist.map (fun rv : HITLReview => rv.finding_id) (List.filter_sublist _)
    have hn : (l.map (·.finding_id)).Nodup := List.Nodup.sublist hsub h2
    have hc : ∀ x ∈ l.map (·.finding_id), x = fid := by
      intro x hx
      obtain ⟨rv, hrv, rfl⟩ := List.mem_map.mp hx
      have := List.of_mem_filter hrv
      simp only [decide_eq_true_eq] at this
      exact this.2
    have := length_le_one_of_nodup_const hn hc
    simpa using this
  · intro rv _
    exact ⟨rv.finding_id, rfl, fun g hg => hg.symm⟩

/-- Witness for the amended C9 on a concrete distinct-id history. -/
theorem c9_pending_review_unique_witness :
    ((runOps [Op.ingest
        [{ id := "a", source := .GITHUB_PR, severity := .CRITICAL, confidence := 1 }] 0
        (fun _ => "r")]).reviews.filter
      (fun rv => decide (rv.status = "pending" ∧ rv.finding_id = "a"))).length ≤ 1 :=
  (c9_pending_review_unique [Op.ingest
      [{ id := "a", source := .GITHUB_PR, severity := .CRITICAL, confidence := 1 }] 0
      (fun _ => "r")]
    (by intro op hop
        rw [List.mem_singleton] at hop
        subst hop
        simp [Op.batchNodup])).1 "a"

/-- Claim C10: `resolve_review` validates nothing — any status string,
including "pending", is written verbatim onto the first review matching the
id, together with the reviewer, notes and resolution timestamp. -/
theorem c10_resolve_unvalidated (st : OrchestratorAgent) (rid s rev : String)
    (notes : Option String) (now : ℤ) (h : ∃ rv ∈ st.reviews, rv.id = rid) :
    ∃ rv', (resolve_review st rid s rev notes now).2 = some rv'
      ∧ rv'.status = s ∧ rv'.reviewer = some rev ∧ rv'.notes = notes
      ∧ rv'.resolved_at = some now
      ∧ rv' ∈ (resolve_review st rid s rev notes now).1.reviews := by
  unfold resolve_review
  exact resolve_list_found st.reviews rid s rev notes now h

/-- Witness for C10: an approved (terminal) review is sent back to status
"pending" through the public resolve interface. -/
theorem c10_resolve_unvalidated_witness :
    ((resolve_review
      { reviews := [{ id := "r1", finding_id := "f1", status := "approved",
                      reviewer := some "bob", created_at := 0 }] }
      "r1" "pending" "alice" none 5).2.map (·.status)) = some "pending" := by
  obtain ⟨rv', h1, h2, _⟩ := c10_resolve_unvalidated
    { reviews := [{ id := "r1", finding_id := "f1", status := "approved",
                    reviewer := some "bob", created_at := 0 }] }
    "r1" "pending" "alice" none 5
    ⟨{ id := "r1", finding_id := "f1", status := "approved",
       reviewer := some "bob", created_at := 0 }, List.mem_singleton.mpr rfl, rfl⟩
  rw [h1]
  simp [h2]
